import Mathlib

set_option maxHeartbeats 1000000
set_option linter.unusedTactic false
set_option linter.unnecessarySeqFocus false

namespace S3

/-- Byte strings are modelled as lists of byte values. -/
abbrev Bytes := List Nat

/-- An S3 object: its key and its byte payload (what `Body.read()` returns). -/
structure S3Object where
  key : String
  payload : Bytes
  deriving DecidableEq

/-- Model of `os.path.basename` for POSIX paths: everything after the last
slash of the path (empty when the path ends in a slash). -/
def basename (p : String) : String :=
  String.mk ((p.data.reverse.takeWhile (fun c => c ≠ '/')).reverse)

/-- Model of `os.path.dirname` for POSIX paths: everything up to the last
slash, with trailing slashes stripped unless the head consists only of
slashes; the empty string when the path has no slash. -/
def dirname (p : String) : String :=
  let head := (p.data.reverse.dropWhile (fun c => c ≠ '/')).reverse
  if head.all (fun c => c = '/') then String.mk head
  else String.mk ((head.reverse.dropWhile (fun c => c = '/')).reverse)

/-- Model of the Python call os.path.join(a, b) for POSIX paths, two arguments. -/
def pjoin (a b : String) : String :=
  if b.data.head? = some '/' then b
  else if a = "" ∨ a.data.getLast? = some '/' then a ++ b
  else a ++ "/" ++ b

/-- Model of the Python expression `s.replace('/', '__')` of source line 125:
every slash becomes two underscores. -/
def replaceSlashes (s : String) : String :=
  String.mk (s.data.foldr (fun c acc => if c = '/' then '_' :: '_' :: acc else c :: acc) [])

/-- The local filesystem, as far as the tool observes it: which directories
exist and which files exist with which contents. -/
structure FS where
  dirs : String → Bool
  files : String → Option Bytes

/-- Opening a path for writing (`open(path, 'wb')`) succeeds exactly when the
parent directory of the path exists; a path whose dirname is empty lives in
the current working directory, which always exists. -/
def FS.canOpen (fs : FS) (p : String) : Bool :=
  (dirname p == "") || fs.dirs (dirname p)

/-- Writing a file: after `open(path, 'wb')` and the writes, content `c` is at
path `p`; everything else is unchanged. -/
def FS.setFile (fs : FS) (p : String) (c : Bytes) : FS :=
  { fs with files := fun q => if q = p then some c else fs.files q }

/-- Abbreviation for the write pattern of the download loop: open for writing
truncates the file to empty, then the write leaves the content; definitionally
equal to the two `setFile` steps it abbreviates. -/
def FS.dlWrite (fs : FS) (p : String) (c : Bytes) : FS :=
  (fs.setFile p []).setFile p c

/-- The chain of directories `os.makedirs(name)` creates: the name itself and
all its ancestors, stopping at the working directory or a filesystem root. -/
def dirChain : Nat → String → List String
  | 0, _ => []
  | fuel + 1, p =>
    if p = "" then []
    else if dirname p = p then [p]
    else p :: dirChain fuel (dirname p)

/-- Model of `os.makedirs(name, exist_ok=True)` (source line 100): creates the
directory and all missing intermediate directories, never failing on existing
ones. -/
def FS.mkdirs (fs : FS) (name : String) : FS :=
  { fs with dirs := fun d => fs.dirs d || (dirChain (name.length + 1) name).contains d }

/-- A bucket: its name and its objects, in the enumeration order the storage
backend returns them (not assumed sorted). -/
structure Bucket where
  name : String
  objects : List S3Object

/-- Prefix matching on keys as the S3 listing filter does it: exact string
prefix match. -/
def keyHasPfx (pfx key : String) : Bool :=
  List.isPrefixOf pfx.data key.data

/-- Model of `bucket.objects.filter(Prefix=pfx)`: the objects whose key starts
with `pfx`, in enumeration order.  The filtering itself is delegated by boto3
to the storage service; this is its documented semantics. -/
def Bucket.objectsFiltered (bk : Bucket) (pfx : String) : List S3Object :=
  bk.objects.filter (fun o => keyHasPfx pfx o.key)

/-- Model of `set_profile` (source lines 132–133): sets the `AWS_PROFILE`
environment variable.  The mutation is only read by the external storage
client for credential resolution, never by the state modelled here, so the
command models below do not thread the environment. -/
def set_profile (env : String → Option String) (profile : String) : String → Option String :=
  fun k => if k = "AWS_PROFILE" then some profile else env k

/-- One line of console output.  The ANSI colour constants of the source are
cosmetic and not modelled; `banner` is a TITLE-styled line, `item` a
FILE-styled line. -/
inductive OutLine where
  | banner (s : String)
  | item (s : String)
  deriving DecidableEq

/-- The `ls` command (source lines 18–34): print a banner naming the bucket,
then one line per object whose key starts with the prefix.  Its type shows it
is read-only: no filesystem argument or result. -/
def ls (bk : Bucket) (pfx : String) : List OutLine :=
  OutLine.banner ("Listing bucket `" ++ bk.name ++ "`") ::
    (bk.objectsFiltered pfx).map (fun o => OutLine.item o.key)

/-- JSON values as `json.loads` produces them.  Numbers are modelled as
integers; no claim depends on numeric semantics. -/
inductive JVal where
  | null
  | bool (b : Bool)
  | num (n : Int)
  | str (s : String)
  | arr (elems : List JVal)
  | obj (fields : List (String × JVal))

/-- Model of Python `row.get(key)` on the record's fields. -/
def lookupField : List (String × JVal) → String → Option JVal
  | [], _ => none
  | (k, v) :: fs, key => if k = key then some v else lookupField fs key

/-- Key deduplication as a Python dict comprehension does it: the first
occurrence wins and order is preserved. -/
def firstDedupAux (seen : List String) : List String → List String
  | [] => []
  | k :: ks =>
    if seen.contains k then firstDedupAux seen ks
    else k :: firstDedupAux (k :: seen) ks

/-- Deduplicate a key list, keeping first occurrences in order. -/
def firstDedup (ks : List String) : List String :=
  firstDedupAux [] ks

/-- Model of `{key: row.get(key) for key in keys}` (source line 67): a mapping
holding exactly the requested keys, with `null` standing for Python `None`
when a key is missing from the record. -/
def projectRow (keys : List String) (fields : List (String × JVal)) : JVal :=
  JVal.obj ((firstDedup keys).map (fun k => (k, (lookupField fields k).getD JVal.null)))

/-- Python iteration over the value `json.loads` returned: lists yield their
elements, dicts their keys, strings their characters; other values raise
`TypeError`. -/
def pyIter : JVal → Option (List JVal)
  | JVal.arr xs => some xs
  | JVal.obj fs => some (fs.map (fun f => JVal.str f.1))
  | JVal.str s => some (s.data.map (fun c => JVal.str (String.singleton c)))
  | _ => none

/-- One line printed by `dump`. -/
inductive DumpLine where
  | banner (s : String)
  | keyLine (s : String)
  | textLine (s : String)
  | rowLine (v : JVal)

/-- The error that aborts a `dump` run. -/
inductive DumpErr where
  | decodeErr (key : String)
  | parseErr (key : String)
  | typeErr (key : String)
  deriving DecidableEq

/-- The row loop of `dump` with `text=false` (source lines 66–68) over one
object's parsed rows: with `keys` empty each row is printed unmodified;
otherwise each row must be a mapping and is printed projected to `keys`, and a
non-mapping row raises (`row.get` is missing) after the earlier rows have
already been printed. -/
def dumpRows (keys : List String) (okey : String) : List JVal → List DumpLine × Option DumpErr
  | [] => ([], none)
  | r :: rs =>
    if keys.isEmpty then
      let t := dumpRows keys okey rs
      (DumpLine.rowLine r :: t.1, t.2)
    else
      match r with
      | JVal.obj fields =>
        let t := dumpRows keys okey rs
        (DumpLine.rowLine (projectRow keys fields) :: t.1, t.2)
      | _ => ([], some (DumpErr.typeErr okey))

/-- Processing of one object by `dump` (source lines 62–70).  `ud` models the
standard-library `bytes.decode('utf-8')` (`none` is `UnicodeDecodeError`) and
`jp` models `json.loads` (`none` is a parse error); both are capabilities the
tool calls into, so they are parameters of the model.  The key is printed
before the payload is fetched, so it appears even when decoding fails. -/
def dumpObj (ud : Bytes → Option String) (jp : String → Option JVal)
    (keys : List String) (text : Bool) (o : S3Object) : List DumpLine × Option DumpErr :=
  match ud o.payload with
  | none => ([DumpLine.keyLine o.key], some (DumpErr.decodeErr o.key))
  | some content =>
    if text then ([DumpLine.keyLine o.key, DumpLine.textLine content], none)
    else
      match jp content with
      | none => ([DumpLine.keyLine o.key], some (DumpErr.parseErr o.key))
      | some v =>
        match pyIter v with
        | none => ([DumpLine.keyLine o.key], some (DumpErr.typeErr o.key))
        | some rows =>
          let t := dumpRows keys o.key rows
          (DumpLine.keyLine o.key :: t.1, t.2)

/-- The object loop of `dump`: process objects in order, aborting at the first
error; lines printed before the error remain. -/
def dumpLoop (ud : Bytes → Option String) (jp : String → Option JVal)
    (keys : List String) (text : Bool) : List S3Object → List DumpLine × Option DumpErr
  | [] => ([], none)
  | o :: os =>
    let r := dumpObj ud jp keys text o
    match r.2 with
    | some e => (r.1, some e)
    | none =>
      let t := dumpLoop ud jp keys text os
      (r.1 ++ t.1, t.2)

/-- The `dump` command (source lines 37–70): banner, then the object loop. -/
def dump (ud : Bytes → Option String) (jp : String → Option JVal)
    (bk : Bucket) (pfx : String) (keys : List String) (text : Bool) :
    List DumpLine × Option DumpErr :=
  let t := dumpLoop ud jp keys text (bk.objectsFiltered pfx)
  (DumpLine.banner ("Showing content in bucket `" ++ bk.name ++ "` with prefix `" ++ pfx ++ "`")
     :: t.1,
   t.2)

/-- The outcome of one storage transfer: `ok` means the whole payload arrives;
`fail k` means the transfer raises after `k` bytes.  For a streaming
`download_fileobj` the first `k` bytes are already in the destination file
when the exception fires; for a bulk `Body.read()` the exception fires before
any local write happens. -/
inductive Xfer where
  | ok
  | fail (k : Nat)
  deriving DecidableEq

/-- The error that aborts a `download` run: a filesystem open failure at a
path, or a storage transfer failure on a key. -/
inductive DlErr where
  | openFail (path : String)
  | xferFail (key : String)
  deriving DecidableEq

/-- The state the download loop threads: the filesystem and the in-memory
accumulator `merged_bytes`. -/
structure DlState where
  fs : FS
  merged : Bytes

/-- One iteration of the download loop (source lines 102–121) for object `o`
with transfer outcome `x`.  On an exception, `Except.error` carries the
filesystem at the moment the exception propagates.  With `raw` false the file
is opened (created or truncated) before the transfer starts; with `raw` true
and `mg` true the payload plus one newline byte is appended to the
accumulator and no file is touched. -/
def processObj (raw mg : Bool) (tgt : String) (st : DlState) (o : S3Object) (x : Xfer) :
    Except (FS × DlErr) DlState :=
  let path := pjoin tgt (basename o.key)
  if !raw then
    if st.fs.canOpen path then
      match x with
      | Xfer.ok => Except.ok { st with fs := (st.fs.setFile path []).setFile path o.payload }
      | Xfer.fail k =>
        Except.error ((st.fs.setFile path []).setFile path (o.payload.take k),
          DlErr.xferFail o.key)
    else Except.error (st.fs, DlErr.openFail path)
  else
    match x with
    | Xfer.fail _ => Except.error (st.fs, DlErr.xferFail o.key)
    | Xfer.ok =>
      if mg then Except.ok { st with merged := st.merged ++ o.payload ++ [10] }
      else if st.fs.canOpen path then
        Except.ok { st with fs := (st.fs.setFile path []).setFile path o.payload }
      else Except.error (st.fs, DlErr.openFail path)

/-- The download loop over the filtered objects, consuming one transfer
outcome per object (defaulting to `Xfer.ok` when the schedule runs out). -/
def dlLoop (raw mg : Bool) (tgt : String) :
    List S3Object → List Xfer → DlState → DlState × Option DlErr
  | [], _, st => (st, none)
  | o :: os, xs, st =>
    match processObj raw mg tgt st o (xs.headD Xfer.ok) with
    | Except.ok st₁ => dlLoop raw mg tgt os xs.tail st₁
    | Except.error (fs, e) => ({ st with fs := fs }, some e)

/-- The merge output file name (source line 125):
the Python expression `(bucket + '__' + prefix + '.json').replace('/', '__')`. -/
def mergeFileName (bucketName pfx : String) : String :=
  replaceSlashes (bucketName ++ "__" ++ pfx ++ ".json")

/-- The `download` command (source lines 73–129).  `xs` is the schedule of
transfer outcomes, one per enumerated object; `fs0` is the initial local
filesystem.  Returns the final filesystem and the error that aborted the
command, if any.  Note the final merge write (source lines 124–128) is
outside the `raw` branch: it runs whenever `mg` is set and the loop finished
without an exception. -/
def download (bk : Bucket) (pfx tgt : String) (new_dir raw mg : Bool)
    (xs : List Xfer) (fs0 : FS) : FS × Option DlErr :=
  let fs1 := if new_dir then fs0.mkdirs tgt else fs0
  let r := dlLoop raw mg tgt (bk.objectsFiltered pfx) xs { fs := fs1, merged := [] }
  match r.2 with
  | some e => (r.1.fs, some e)
  | none =>
    if mg then
      let mpath := pjoin tgt (mergeFileName bk.name pfx)
      if r.1.fs.canOpen mpath then (r.1.fs.setFile mpath r.1.merged, none)
      else (r.1.fs, some (DlErr.openFail mpath))
    else (r.1.fs, none)

/-- Every transfer in the schedule succeeds. -/
def AllOk (xs : List Xfer) : Prop :=
  ∀ x ∈ xs, x = Xfer.ok

instance : DecidablePred AllOk := fun xs =>
  inferInstanceAs (Decidable (∀ x ∈ xs, x = Xfer.ok))

/-- Concrete filesystem for witnesses: only the directory `t` exists. -/
def fsT : FS := ⟨fun d => d == "t", fun _ => none⟩

/-- Concrete filesystem for witnesses: no directory and no file exists. -/
def fsNone : FS := ⟨fun _ => false, fun _ => none⟩

/-- Empty prefix, used by witnesses. -/
def pfxE : String := ""

/-- Concrete target directory name, used by witnesses. -/
def tgtT : String := "t"

/-- Concrete prefix, used by witnesses. -/
def pfxX : String := "x"

/-- Concrete prefix that matches no key of the witness buckets. -/
def pfxZ : String := "zzz"

/-- Concrete prefix containing a slash, used by the merge-name witness. -/
def pfxLogs : String := "logs/x"

/-- Empty witness bucket. -/
def bkE : Bucket := ⟨"b", []⟩

/-- Witness bucket with the two objects of the spec's merge example. -/
def bkAB : Bucket := ⟨"b", [⟨"x/a", [65, 65, 65]⟩, ⟨"x/b", [66, 66, 66]⟩]⟩

/-- Witness bucket whose prefix contains a slash. -/
def bkLog : Bucket := ⟨"b", [⟨"logs/x1", [65]⟩]⟩

/-- First witness object of the colliding pair. -/
def oColl1 : S3Object := ⟨"d1/f", [1]⟩

/-- Second witness object of the colliding pair: same basename, other dir. -/
def oColl2 : S3Object := ⟨"d2/f", [2]⟩

/-- Witness bucket with two keys differing only in directory, same basename. -/
def bkColl : Bucket := ⟨"b", [oColl1, oColl2]⟩

/-- Witness object with key `k`. -/
def oK : S3Object := ⟨"k", [7, 8, 9]⟩

/-- Witness bucket with one object. -/
def bkK : Bucket := ⟨"b", [oK]⟩

/-- Witness bucket for `ls`. -/
def bkLs : Bucket := ⟨"b", [⟨"logs/a", [1]⟩, ⟨"other", [2]⟩]⟩

/-- Concrete prefix for the `ls` witness. -/
def pfxL : String := "logs/"

/-- Witness UTF-8 decoder: decodes each byte as the character with that code
(total, enough for the ASCII witnesses). -/
def udW : Bytes → Option String := fun bs => some (String.mk (bs.map (fun b => Char.ofNat b)))

/-- Witness JSON parser returning the spec example `[{"a":1,"b":2,"c":3}]`. -/
def jpW : String → Option JVal := fun _ =>
  some (JVal.arr [JVal.obj [("a", JVal.num 1), ("b", JVal.num 2), ("c", JVal.num 3)]])

/-- Witness JSON parser that always fails. -/
def jpNone : String → Option JVal := fun _ => none

/-- Witness object for the dump claims. -/
def oW : S3Object := ⟨"k", [104, 105]⟩

/-- The decoded payload of `oW` under `udW`. -/
def sW : String := String.mk (oW.payload.map (fun b => Char.ofNat b))

/-- The rows of the spec example, as field lists. -/
def fieldssW : List (List (String × JVal)) :=
  [[("a", JVal.num 1), ("b", JVal.num 2), ("c", JVal.num 3)]]

/-- The requested keys of the spec example. -/
def keysW : List String := ["a", "b"]

theorem setFile_dirs (fs : FS) (p : String) (c : Bytes) : (fs.setFile p c).dirs = fs.dirs :=
  rfl

theorem canOpen_setFile (fs : FS) (p q : String) (c : Bytes) :
    (fs.setFile p c).canOpen q = fs.canOpen q :=
  rfl

theorem processObj_ok_dirs {raw mg : Bool} {tgt : String} {st : DlState} {o : S3Object}
    {x : Xfer} {st₁ : DlState} (h : processObj raw mg tgt st o x = Except.ok st₁) :
    st₁.fs.dirs = st.fs.dirs := by
  unfold processObj at h
  cases raw <;> cases x <;> simp_all <;>
    (repeat' split at h) <;> simp_all <;>
    (try obtain ⟨h, -⟩ := h) <;> (try subst h) <;> rfl

theorem processObj_err_dirs {raw mg : Bool} {tgt : String} {st : DlState} {o : S3Object}
    {x : Xfer} {fs : FS} {e : DlErr} (h : processObj raw mg tgt st o x = Except.error (fs, e)) :
    fs.dirs = st.fs.dirs := by
  unfold processObj at h
  cases raw <;> cases x <;> simp_all <;>
    (repeat' split at h) <;> simp_all <;>
    (try obtain ⟨h, -⟩ := h) <;> (try subst h) <;> rfl

theorem dlLoop_dirs (raw mg : Bool) (tgt : String) :
    ∀ (os : List S3Object) (xs : List Xfer) (st : DlState),
      ((dlLoop raw mg tgt os xs st).1).fs.dirs = st.fs.dirs
  | [], _, _ => rfl
  | o :: os, xs, st => by
    unfold dlLoop
    cases h : processObj raw mg tgt st o (xs.headD Xfer.ok) with
    | ok st₁ =>
      simpa using (dlLoop_dirs raw mg tgt os xs.tail st₁).trans (processObj_ok_dirs h)
    | error p =>
      obtain ⟨fs, e⟩ := p
      simpa using processObj_err_dirs h

theorem processObj_false_mg (mg mg' : Bool) (tgt : String) (st : DlState) (o : S3Object)
    (x : Xfer) : processObj false mg tgt st o x = processObj false mg' tgt st o x :=
  rfl

theorem dlLoop_false_mg (mg mg' : Bool) (tgt : String) :
    ∀ (os : List S3Object) (xs : List Xfer) (st : DlState),
      dlLoop false mg tgt os xs st = dlLoop false mg' tgt os xs st
  | [], _, _ => rfl
  | o :: os, xs, st => by
    unfold dlLoop
    rw [processObj_false_mg mg mg' tgt st o (xs.headD Xfer.ok)]
    cases h : processObj false mg' tgt st o (xs.headD Xfer.ok) with
    | ok st₁ => simpa using dlLoop_false_mg mg mg' tgt os xs.tail st₁
    | error p => rfl

theorem processObj_false_merged {mg : Bool} {tgt : String} {st : DlState} {o : S3Object}
    {x : Xfer} {st₁ : DlState} (h : processObj false mg tgt st o x = Except.ok st₁) :
    st₁.merged = st.merged := by
  unfold processObj at h
  cases x <;> simp_all <;> (repeat' split at h) <;> simp_all <;>
    (try obtain ⟨h, -⟩ := h) <;> (try subst h) <;> rfl

theorem dlLoop_false_merged (mg : Bool) (tgt : String) :
    ∀ (os : List S3Object) (xs : List Xfer) (st : DlState),
      ((dlLoop false mg tgt os xs st).1).merged = st.merged
  | [], _, _ => rfl
  | o :: os, xs, st => by
    unfold dlLoop
    cases h : processObj false mg tgt st o (xs.headD Xfer.ok) with
    | ok st₁ =>
      simpa using (dlLoop_false_merged mg tgt os xs.tail st₁).trans (processObj_false_merged h)
    | error p =>
      obtain ⟨fs, e⟩ := p
      simp

/-- C1: the claim that with `raw=false` the merge flag has no effect is false:
on an empty bucket (and any bucket), `merge=true` additionally writes an empty
merge output file that the `merge=false` run does not write, because the final
merge block of `download` sits outside the `raw` branch. -/
theorem C1_counterexample :
    ¬ ((download bkE pfxE tgtT false false true [] fsT).1.files
          (pjoin tgtT (mergeFileName bkE.name pfxE))
        = (download bkE pfxE tgtT false false false [] fsT).1.files
          (pjoin tgtT (mergeFileName bkE.name pfxE))) := by
  decide

/-- C1 (amended): with `raw=false` the merge flag leaves every per-object
download, every directory, and every error of the `merge=false` run intact;
the only difference is that the run with `merge=true`, when it completes
normally, additionally writes the merge output file with empty content (the
accumulator is never fed outside the `raw` branch). -/
theorem C1_merge_without_raw (bk : Bucket) (pfx tgt : String) (nd : Bool)
    (xs : List Xfer) (fs0 : FS) :
    (∀ p, p ≠ pjoin tgt (mergeFileName bk.name pfx) →
        (download bk pfx tgt nd false true xs fs0).1.files p
          = (download bk pfx tgt nd false false xs fs0).1.files p)
    ∧ (download bk pfx tgt nd false true xs fs0).1.dirs
        = (download bk pfx tgt nd false false xs fs0).1.dirs
    ∧ (∀ e, (download bk pfx tgt nd false false xs fs0).2 = some e →
        (download bk pfx tgt nd false true xs fs0).2 = some e)
    ∧ ((download bk pfx tgt nd false true xs fs0).2 = none →
        (download bk pfx tgt nd false true xs fs0).1.files
          (pjoin tgt (mergeFileName bk.name pfx)) = some []) := by
  have hmg := dlLoop_false_mg true false tgt (bk.objectsFiltered pfx) xs
    ⟨if nd then fs0.mkdirs tgt else fs0, []⟩
  have hmrg := dlLoop_false_merged false tgt (bk.objectsFiltered pfx) xs
    ⟨if nd then fs0.mkdirs tgt else fs0, []⟩
  simp only [download]
  rw [hmg]
  generalize dlLoop false false tgt (bk.objectsFiltered pfx) xs
    ⟨if nd then fs0.mkdirs tgt else fs0, []⟩ = L at hmrg ⊢
  obtain ⟨st, err⟩ := L
  simp only at hmrg
  cases err with
  | some e =>
    refine ⟨fun p _ => rfl, rfl, fun e h => h, fun h => absurd h (by simp)⟩
  | none =>
    by_cases hco : st.fs.canOpen (pjoin tgt (mergeFileName bk.name pfx)) = true
    · refine ⟨?_, ?_, ?_, ?_⟩
      · intro p hp
        simp [hco, FS.setFile, hp]
      · simp [hco, FS.setFile]
      · intro e h
        simp at h
      · intro _
        simp [hco, FS.setFile, hmrg]
    · refine ⟨?_, ?_, ?_, ?_⟩
      · intro p hp
        simp [hco]
      · simp [hco]
      · intro e h
        simp at h
      · intro h
        simp [hco] at h

/-- C1 witness: a concrete `raw=false, merge=true` run completing normally
leaves the empty merge file on disk. -/
theorem C1_witness :
    (download bkK pfxE tgtT false false true [] fsT).1.files
      (pjoin tgtT (mergeFileName bkK.name pfxE)) = some [] :=
  (C1_merge_without_raw bkK pfxE tgtT false [] fsT).2.2.2 (by decide)

/-- C5: `ls` prints one banner line naming the bucket, then exactly one line
per object whose key starts with the prefix and no line for any other object;
its type (no filesystem in, none out) shows it has no side effect beyond
console output. -/
theorem C5_list_prints_matching_keys (bk : Bucket) (pfx : String) :
    (ls bk pfx).head? = some (OutLine.banner ("Listing bucket `" ++ bk.name ++ "`"))
    ∧ (ls bk pfx).length
        = 1 + (bk.objects.filter (fun o => keyHasPfx pfx o.key)).length
    ∧ (∀ k, OutLine.item k ∈ ls bk pfx
        ↔ ∃ o ∈ bk.objects, keyHasPfx pfx o.key = true ∧ o.key = k) := by
  refine ⟨rfl, by simp [ls, Bucket.objectsFiltered, Nat.add_comm], ?_⟩
  intro k
  simp only [ls, Bucket.objectsFiltered, List.mem_cons, List.mem_map, List.mem_filter]
  constructor
  · rintro (h | ⟨o, ⟨ho, hp⟩, hk⟩)
    · exact absurd h (by simp)
    · exact ⟨o, ho, hp, by simpa using hk⟩
  · rintro ⟨o, ho, hp, hk⟩
    exact Or.inr ⟨o, ⟨ho, hp⟩, by simp [hk]⟩

/-- C5 witness: on a concrete bucket with one matching and one non-matching
key, `ls` prints two lines (banner plus the single match). -/
theorem C5_witness : (ls bkLs pfxL).length = 2 :=
  (C5_list_prints_matching_keys bkLs pfxL).2.1

/-- C6: with `text=true`, `dump` prints for an object exactly its key banner
and the UTF-8 decoding of its full payload, unmodified; the JSON parser `jp`
is universally quantified and absent from the result, so no JSON parsing is
attempted regardless of the payload's content. -/
theorem C6_dump_text_prints_decoded_payload (ud : Bytes → Option String)
    (jp : String → Option JVal) (keys : List String) (o : S3Object) (s : String)
    (hud : ud o.payload = some s) :
    dumpObj ud jp keys true o = ([DumpLine.keyLine o.key, DumpLine.textLine s], none) := by
  simp [dumpObj, hud]

/-- C6 witness: a concrete object is printed verbatim even under a JSON
parser that fails on every input. -/
theorem C6_witness :
    dumpObj udW jpNone [] true oW
      = ([DumpLine.keyLine oW.key, DumpLine.textLine sW], none) :=
  C6_dump_text_prints_decoded_payload udW jpNone [] oW sW rfl

theorem dumpRows_objs (keys : List String) (okey : String)
    (fss : List (List (String × JVal))) :
    dumpRows keys okey (fss.map JVal.obj)
      = (fss.map (fun fields =>
          DumpLine.rowLine (if keys.isEmpty then JVal.obj fields else projectRow keys fields)),
         none) := by
  induction fss with
  | nil => rfl
  | cons f fs ih => by_cases hk : keys.isEmpty <;> simp [dumpRows, hk, ih]

/-- C4: with `text=false`, on a payload that decodes and parses as a JSON
array of record objects, `dump` prints each record projected to exactly the
requested keys (`projectRow`, which yields `null` for a key missing from the
record) when `keys` is non-empty, and each record unmodified when `keys` is
empty; no error occurs. -/
theorem C4_dump_key_projection (ud : Bytes → Option String) (jp : String → Option JVal)
    (keys : List String) (o : S3Object) (s : String)
    (fieldss : List (List (String × JVal)))
    (hud : ud o.payload = some s)
    (hjp : jp s = some (JVal.arr (fieldss.map JVal.obj))) :
    dumpObj ud jp keys false o
      = (DumpLine.keyLine o.key ::
          fieldss.map (fun fields =>
            DumpLine.rowLine (if keys.isEmpty then JVal.obj fields else projectRow keys fields)),
         none) := by
  simp [dumpObj, hud, hjp, pyIter, dumpRows_objs]

/-- C4 witness: the spec example, payload `[{"a":1,"b":2,"c":3}]` with
`keys=["a","b"]`, prints the mapping with exactly keys `a` and `b`. -/
theorem C4_witness :
    dumpObj udW jpW keysW false oW
      = ([DumpLine.keyLine oW.key,
          DumpLine.rowLine (JVal.obj [("a", JVal.num 1), ("b", JVal.num 2)])], none) :=
  C4_dump_key_projection udW jpW keysW oW sW fieldssW rfl rfl

theorem dlLoop_raw_merge (tgt : String) :
    ∀ (os : List S3Object) (xs : List Xfer) (st : DlState), AllOk xs →
      dlLoop true true tgt os xs st
        = (⟨st.fs, st.merged ++ (os.map (fun o => o.payload ++ [10])).flatten⟩, none)
  | [], xs, st, _ => by simp [dlLoop]
  | o :: os, xs, st, hok => by
    cases xs with
    | nil =>
      have ih := dlLoop_raw_merge tgt os []
        { st with merged := st.merged ++ o.payload ++ [10] } (fun x hx => absurd hx (by simp))
      calc dlLoop true true tgt (o :: os) [] st
          = dlLoop true true tgt os []
              { st with merged := st.merged ++ o.payload ++ [10] } := rfl
        _ = _ := by rw [ih]; simp
    | cons x xs =>
      have hx : x = Xfer.ok := hok x (by simp)
      subst hx
      have ih := dlLoop_raw_merge tgt os xs
        { st with merged := st.merged ++ o.payload ++ [10] }
        (fun y hy => hok y (by simp [hy]))
      calc dlLoop true true tgt (o :: os) (Xfer.ok :: xs) st
          = dlLoop true true tgt os xs
              { st with merged := st.merged ++ o.payload ++ [10] } := rfl
        _ = _ := by rw [ih]; simp

/-- C2: with `raw=true, merge=true` and all transfers succeeding, `download`
exits normally, writes exactly one file (the merge output) whose content is
the concatenation of each matching object's payload followed by one newline
byte, in enumeration order, and writes no per-object file: every other path
keeps its initial content. -/
theorem C2_raw_merge_concatenates (bk : Bucket) (pfx tgt : String) (nd : Bool)
    (xs : List Xfer) (fs0 : FS) (hok : AllOk xs)
    (hco : (if nd then fs0.mkdirs tgt else fs0).canOpen
        (pjoin tgt (mergeFileName bk.name pfx)) = true) :
    (download bk pfx tgt nd true true xs fs0).2 = none
    ∧ (download bk pfx tgt nd true true xs fs0).1.files
        (pjoin tgt (mergeFileName bk.name pfx))
      = some (((bk.objectsFiltered pfx).map (fun o => o.payload ++ [10])).flatten)
    ∧ (∀ p, p ≠ pjoin tgt (mergeFileName bk.name pfx) →
        (download bk pfx tgt nd true true xs fs0).1.files p = fs0.files p) := by
  simp only [download]
  rw [dlLoop_raw_merge tgt (bk.objectsFiltered pfx) xs
    ⟨if nd then fs0.mkdirs tgt else fs0, []⟩ hok]
  refine ⟨by simp [hco], by simp [hco, FS.setFile], ?_⟩
  intro p hp
  cases nd <;> simp_all [FS.setFile, FS.mkdirs]

/-- C2 witness: the spec example, payloads `AAA` and `BBB`, produces the
single file with content `AAA\n BBB\n` (bytes 65 and 66, newline 10). -/
theorem C2_witness :
    (download bkAB pfxX tgtT false true true [] fsT).1.files
      (pjoin tgtT (mergeFileName bkAB.name pfxX))
      = some [65, 65, 65, 10, 66, 66, 66, 10] :=
  (C2_raw_merge_concatenates bkAB pfxX tgtT false [] fsT (by decide) (by decide)).2.1

theorem replaceSlashes_no_slash_aux (cs acc : List Char)
    (hacc : ∀ c ∈ acc, c ≠ '/') :
    ∀ c ∈ cs.foldr (fun c acc => if c = '/' then '_' :: '_' :: acc else c :: acc) acc,
      c ≠ '/' := by
  induction cs with
  | nil => exact hacc
  | cons c cs ih =>
    intro d hd
    simp only [List.foldr_cons] at hd
    by_cases hc : c = '/'
    · rw [if_pos hc] at hd
      rcases List.mem_cons.mp hd with rfl | hd
      · decide
      rcases List.mem_cons.mp hd with rfl | hd
      · decide
      · exact ih d hd
    · rw [if_neg hc] at hd
      rcases List.mem_cons.mp hd with rfl | hd
      · exact hc
      · exact ih d hd

theorem replaceSlashes_no_slash (s : String) :
    ∀ c ∈ (replaceSlashes s).data, c ≠ '/' :=
  replaceSlashes_no_slash_aux s.data [] (by simp)

/-- C3: any merge-mode run that completes normally has written the merge
output file under `target`, at the name built as
`bucket + "__" + prefix + ".json"` with every slash of that whole name
replaced by two underscores (the sanitized name contains no slash at all);
its content is the final accumulator of the loop. -/
theorem C3_merge_file_name (bk : Bucket) (pfx tgt : String) (nd raw : Bool)
    (xs : List Xfer) (fs0 : FS)
    (hnone : (download bk pfx tgt nd raw true xs fs0).2 = none) :
    (download bk pfx tgt nd raw true xs fs0).1.files
        (pjoin tgt (replaceSlashes (bk.name ++ "__" ++ pfx ++ ".json")))
      = some ((dlLoop raw true tgt (bk.objectsFiltered pfx) xs
          ⟨if nd then fs0.mkdirs tgt else fs0, []⟩).1.merged)
    ∧ (∀ c ∈ (replaceSlashes (bk.name ++ "__" ++ pfx ++ ".json")).data, c ≠ '/') := by
  refine ⟨?_, replaceSlashes_no_slash (bk.name ++ "__" ++ pfx ++ ".json")⟩
  simp only [download, mergeFileName] at hnone ⊢
  generalize dlLoop raw true tgt (bk.objectsFiltered pfx) xs
    ⟨if nd then fs0.mkdirs tgt else fs0, []⟩ = L at hnone ⊢
  obtain ⟨st, err⟩ := L
  cases err with
  | some e => simp at hnone
  | none =>
    by_cases hco : st.fs.canOpen
        (pjoin tgt (replaceSlashes (bk.name ++ "__" ++ pfx ++ ".json"))) = true
    · simp [hco, FS.setFile]
    · simp [hco] at hnone

/-- C3 witness: bucket `b`, prefix `logs/x` produce the file
`t/b__logs__x.json`: the slash of the prefix is replaced in the name. -/
theorem C3_witness :
    (download bkLog pfxLogs tgtT false true true [] fsT).1.files
      (pjoin tgtT (replaceSlashes (bkLog.name ++ "__" ++ pfxLogs ++ ".json")))
      = some [65, 10] :=
  (C3_merge_file_name bkLog pfxLogs tgtT false true [] fsT (by decide)).1

/-- C9: a merge-mode run whose prefix matches no object still writes the
merge output file, with empty content, under `target`, and exits normally;
no other path is touched. -/
theorem C9_merge_empty_enumeration (bk : Bucket) (pfx tgt : String) (nd raw : Bool)
    (xs : List Xfer) (fs0 : FS)
    (hempty : bk.objectsFiltered pfx = [])
    (hco : (if nd then fs0.mkdirs tgt else fs0).canOpen
        (pjoin tgt (mergeFileName bk.name pfx)) = true) :
    (download bk pfx tgt nd raw true xs fs0).2 = none
    ∧ (download bk pfx tgt nd raw true xs fs0).1.files
        (pjoin tgt (mergeFileName bk.name pfx)) = some []
    ∧ (∀ p, p ≠ pjoin tgt (mergeFileName bk.name pfx) →
        (download bk pfx tgt nd raw true xs fs0).1.files p = fs0.files p) := by
  simp only [download, hempty]
  refine ⟨by simp [dlLoop, hco], by simp [dlLoop, hco, FS.setFile], ?_⟩
  intro p hp
  cases nd <;> simp_all [dlLoop, FS.setFile, FS.mkdirs]

/-- C9 witness: a prefix matching nothing still leaves the empty merge file. -/
theorem C9_witness :
    (download bkK pfxZ tgtT false false true [] fsT).1.files
      (pjoin tgtT (mergeFileName bkK.name pfxZ)) = some [] :=
  (C9_merge_empty_enumeration bkK pfxZ tgtT false false [] fsT (by decide) (by decide)).2.1

theorem processObj_nomerge_ok (raw : Bool) (tgt : String) (st : DlState) (o : S3Object)
    (hco : st.fs.canOpen (pjoin tgt (basename o.key)) = true) :
    processObj raw false tgt st o Xfer.ok
      = Except.ok { st with fs := st.fs.dlWrite (pjoin tgt (basename o.key)) o.payload } := by
  cases raw <;> simp [processObj, hco, FS.dlWrite]

theorem dlLoop_nomerge_files (raw : Bool) (tgt : String) :
    ∀ (os : List S3Object) (xs : List Xfer) (st : DlState), AllOk xs →
      (∀ o ∈ os, st.fs.canOpen (pjoin tgt (basename o.key)) = true) →
      (dlLoop raw false tgt os xs st).2 = none
      ∧ ∀ p, ((dlLoop raw false tgt os xs st).1).fs.files p
          = match os.reverse.find? (fun o => pjoin tgt (basename o.key) == p) with
            | some o => some o.payload
            | none => st.fs.files p
  | [], _, st, _, _ => ⟨rfl, fun p => rfl⟩
  | o :: os, xs, st, hok, hco => by
    have hx : xs.headD Xfer.ok = Xfer.ok := by
      cases xs with
      | nil => rfl
      | cons y ys => exact hok y (by simp)
    have hstep := processObj_nomerge_ok raw tgt st o (hco o (by simp))
    have ih := dlLoop_nomerge_files raw tgt os xs.tail
      { st with fs := st.fs.dlWrite (pjoin tgt (basename o.key)) o.payload }
      (fun y hy => hok y (List.mem_of_mem_tail hy))
      (fun o' ho' => hco o' (by simp [ho']))
    have hL : dlLoop raw false tgt (o :: os) xs st
        = dlLoop raw false tgt os xs.tail
            { st with fs := st.fs.dlWrite (pjoin tgt (basename o.key)) o.payload } := by
      simp only [dlLoop]
      rw [hx, hstep]
    rw [hL]
    refine ⟨ih.1, ?_⟩
    intro p
    rw [ih.2 p, List.reverse_cons, List.find?_append]
    cases hfind : os.reverse.find? (fun o => pjoin tgt (basename o.key) == p) with
    | some o' => simp
    | none =>
      by_cases hpo : (pjoin tgt (basename o.key) == p) = true
      · have hpe : pjoin tgt (basename o.key) = p := by simpa using hpo
        simp [List.find?, hpo, FS.dlWrite, FS.setFile, hpe.symm]
      · have hpe : ¬ p = pjoin tgt (basename o.key) := fun h => hpo (by simp [h])
        simp [List.find?, hpo, FS.dlWrite, FS.setFile, hpe]

/-- C7: in the non-merge modes (`raw` either way, `merge=false`), with all
transfers succeeding and every destination openable, `download` exits
normally and the final content of any path `p` is the payload of the last
enumerated object whose key's basename joined under `target` equals `p`
(later objects overwrite earlier ones colliding on basename), while paths
written by no object keep their initial content. -/
theorem C7_basename_collision_overwrite (bk : Bucket) (pfx tgt : String) (nd raw : Bool)
    (xs : List Xfer) (fs0 : FS) (hok : AllOk xs)
    (hco : ∀ o ∈ bk.objectsFiltered pfx,
        (if nd then fs0.mkdirs tgt else fs0).canOpen (pjoin tgt (basename o.key)) = true) :
    (download bk pfx tgt nd raw false xs fs0).2 = none
    ∧ ∀ p, (download bk pfx tgt nd raw false xs fs0).1.files p
        = match (bk.objectsFiltered pfx).reverse.find?
              (fun o => pjoin tgt (basename o.key) == p) with
          | some o => some o.payload
          | none => fs0.files p := by
  have h := dlLoop_nomerge_files raw tgt (bk.objectsFiltered pfx) xs
    ⟨if nd then fs0.mkdirs tgt else fs0, []⟩ hok hco
  have hfiles : (if nd then fs0.mkdirs tgt else fs0).files = fs0.files := by
    cases nd <;> rfl
  simp only [download]
  generalize hL : dlLoop raw false tgt (bk.objectsFiltered pfx) xs
    ⟨if nd then fs0.mkdirs tgt else fs0, []⟩ = L at h ⊢
  obtain ⟨st, err⟩ := L
  obtain ⟨h2, h1⟩ := h
  simp only at h2
  subst h2
  refine ⟨rfl, ?_⟩
  intro p
  have h3 := h1 p
  cases hfind : (bk.objectsFiltered pfx).reverse.find?
      (fun o => pjoin tgt (basename o.key) == p) with
  | some o' =>
    simp only [hfind] at h3
    exact h3
  | none =>
    simp only [hfind] at h3
    exact h3.trans (congrFun hfiles p)

/-- C7 witness: two keys sharing the basename `f`; the path derived from the
first key's basename ends up holding the second (later) object's payload. -/
theorem C7_witness :
    (download bkColl pfxE tgtT false true false [] fsT).1.files
      (pjoin tgtT (basename oColl1.key)) = some oColl2.payload :=
  (C7_basename_collision_overwrite bkColl pfxE tgtT false true [] fsT (by decide)
    (by decide)).2 (pjoin tgtT (basename oColl1.key))

/-- C8: with `new_dir=false`, a target directory that does not exist (no path
under it can be opened), at least one matching object and all transfers
succeeding, `download` aborts with a filesystem open error, writes no file and
creates no directory: the filesystem comes back exactly as it was. -/
theorem C8_missing_target_aborts (bk : Bucket) (pfx tgt : String) (raw mg : Bool)
    (xs : List Xfer) (fs0 : FS) (hok : AllOk xs)
    (hne : bk.objectsFiltered pfx ≠ [])
    (hmiss1 : ∀ o ∈ bk.objectsFiltered pfx,
        fs0.canOpen (pjoin tgt (basename o.key)) = false)
    (hmiss2 : fs0.canOpen (pjoin tgt (mergeFileName bk.name pfx)) = false) :
    (download bk pfx tgt false raw mg xs fs0).1 = fs0
    ∧ ∃ p, (download bk pfx tgt false raw mg xs fs0).2 = some (DlErr.openFail p) := by
  have hx : xs.headD Xfer.ok = Xfer.ok := by
    cases xs with
    | nil => rfl
    | cons y ys => exact hok y (by simp)
  cases hE : bk.objectsFiltered pfx with
  | nil => exact absurd hE hne
  | cons o os =>
    have ho : fs0.canOpen (pjoin tgt (basename o.key)) = false :=
      hmiss1 o (by rw [hE]; simp)
    cases raw with
    | true =>
      cases mg with
      | true =>
        have hloop := dlLoop_raw_merge tgt (bk.objectsFiltered pfx) xs ⟨fs0, []⟩ hok
        have hdl : download bk pfx tgt false true true xs fs0
            = (fs0, some (DlErr.openFail (pjoin tgt (mergeFileName bk.name pfx)))) := by
          simp [download, hloop, hmiss2]
        rw [hdl]
        exact ⟨rfl, ⟨pjoin tgt (mergeFileName bk.name pfx), rfl⟩⟩
      | false =>
        have hone : dlLoop true false tgt (o :: os) xs ⟨fs0, []⟩
            = (⟨fs0, []⟩, some (DlErr.openFail (pjoin tgt (basename o.key)))) := by
          unfold dlLoop
          rw [hx]
          simp [processObj, ho]
        have hdl : download bk pfx tgt false true false xs fs0
            = (fs0, some (DlErr.openFail (pjoin tgt (basename o.key)))) := by
          simp [download, hE, hone]
        rw [hdl]
        exact ⟨rfl, ⟨pjoin tgt (basename o.key), rfl⟩⟩
    | false =>
      have hone : dlLoop false mg tgt (o :: os) xs ⟨fs0, []⟩
          = (⟨fs0, []⟩, some (DlErr.openFail (pjoin tgt (basename o.key)))) := by
        unfold dlLoop
        simp [processObj, ho]
      have hdl : download bk pfx tgt false false mg xs fs0
          = (fs0, some (DlErr.openFail (pjoin tgt (basename o.key)))) := by
        simp [download, hE, hone]
      rw [hdl]
      exact ⟨rfl, ⟨pjoin tgt (basename o.key), rfl⟩⟩

/-- C8 witness: a missing target directory and one matching object: the run
fails before writing and the filesystem is returned untouched. -/
theorem C8_witness :
    (download bkK pfxE tgtT false false false [] fsNone).1 = fsNone :=
  (C8_missing_target_aborts bkK pfxE tgtT false false [] fsNone (by decide) (by decide)
    (by decide) (by decide)).1

theorem dlLoop_fail_at (mg : Bool) (tgt : String) :
    ∀ (os₁ : List S3Object) (xs₁ : List Xfer) (o : S3Object) (os₂ : List S3Object)
      (k : Nat) (xs₂ : List Xfer) (st : DlState),
      os₁.length = xs₁.length → AllOk xs₁ →
      (∀ o' ∈ os₁, st.fs.canOpen (pjoin tgt (basename o'.key)) = true) →
      st.fs.canOpen (pjoin tgt (basename o.key)) = true →
      (dlLoop false mg tgt (os₁ ++ o :: os₂) (xs₁ ++ Xfer.fail k :: xs₂) st).2
          = some (DlErr.xferFail o.key)
      ∧ ((dlLoop false mg tgt (os₁ ++ o :: os₂) (xs₁ ++ Xfer.fail k :: xs₂) st).1).fs.files
          (pjoin tgt (basename o.key)) = some (o.payload.take k)
  | [], xs₁, o, os₂, k, xs₂, st, hlen, _, _, hco => by
    have hx : xs₁ = [] := List.length_eq_zero.mp hlen.symm
    subst hx
    have hone : dlLoop false mg tgt (o :: os₂) (Xfer.fail k :: xs₂) st
        = (⟨st.fs.dlWrite (pjoin tgt (basename o.key)) (o.payload.take k), st.merged⟩,
           some (DlErr.xferFail o.key)) := by
      unfold dlLoop
      simp [processObj, hco, FS.dlWrite]
    rw [List.nil_append, List.nil_append, hone]
    exact ⟨rfl, by simp [FS.dlWrite, FS.setFile]⟩
  | o₁ :: os₁, xs₁, o, os₂, k, xs₂, st, hlen, hok, hco₁, hco => by
    cases xs₁ with
    | nil => exact absurd hlen (by simp)
    | cons x₁ xs₁ =>
      have hx : x₁ = Xfer.ok := hok x₁ (by simp)
      subst hx
      have hstep : processObj false mg tgt st o₁ Xfer.ok
          = Except.ok { st with fs := st.fs.dlWrite (pjoin tgt (basename o₁.key)) o₁.payload } :=
        processObj_nomerge_ok false tgt st o₁ (hco₁ o₁ (by simp))
      have ih := dlLoop_fail_at mg tgt os₁ xs₁ o os₂ k xs₂
        { st with fs := st.fs.dlWrite (pjoin tgt (basename o₁.key)) o₁.payload }
        (by simpa using hlen) (fun y hy => hok y (by simp [hy]))
        (fun o' ho' => hco₁ o' (by simp [ho'])) hco
      have hL : dlLoop false mg tgt ((o₁ :: os₁) ++ o :: os₂)
            ((Xfer.ok :: xs₁) ++ Xfer.fail k :: xs₂) st
          = dlLoop false mg tgt (os₁ ++ o :: os₂) (xs₁ ++ Xfer.fail k :: xs₂)
              { st with fs := st.fs.dlWrite (pjoin tgt (basename o₁.key)) o₁.payload } := by
        rw [List.cons_append, List.cons_append]
        simp only [dlLoop]
        rw [show ((Xfer.ok :: (xs₁ ++ Xfer.fail k :: xs₂)).headD Xfer.ok) = Xfer.ok from rfl,
          hstep]
        rfl
      rw [hL]
      exact ih

/-- C10: with `raw=false`, the destination file is opened (truncated) before
the streaming transfer starts, so when the transfer of an object fails after
`k` bytes the command aborts with a transfer error and the destination path
holds exactly the first `k` bytes of that object's payload; whatever content
the path had before, including when `k = 0` (an empty file remains), is
gone. -/
theorem C10_partial_file_on_failure (bk : Bucket) (pfx tgt : String) (nd mg : Bool)
    (os₁ : List S3Object) (o : S3Object) (os₂ : List S3Object)
    (xs₁ : List Xfer) (k : Nat) (xs₂ : List Xfer) (fs0 : FS)
    (hsplit : bk.objectsFiltered pfx = os₁ ++ o :: os₂)
    (hlen : os₁.length = xs₁.length) (hok : AllOk xs₁)
    (hco₁ : ∀ o' ∈ os₁,
        (if nd then fs0.mkdirs tgt else fs0).canOpen (pjoin tgt (basename o'.key)) = true)
    (hco : (if nd then fs0.mkdirs tgt else fs0).canOpen (pjoin tgt (basename o.key)) = true) :
    (download bk pfx tgt nd false mg (xs₁ ++ Xfer.fail k :: xs₂) fs0).2
        = some (DlErr.xferFail o.key)
    ∧ (download bk pfx tgt nd false mg (xs₁ ++ Xfer.fail k :: xs₂) fs0).1.files
        (pjoin tgt (basename o.key)) = some (o.payload.take k) := by
  have h := dlLoop_fail_at mg tgt os₁ xs₁ o os₂ k xs₂
    ⟨if nd then fs0.mkdirs tgt else fs0, []⟩ hlen hok hco₁ hco
  simp only [download, hsplit]
  generalize hL : dlLoop false mg tgt (os₁ ++ o :: os₂) (xs₁ ++ Xfer.fail k :: xs₂)
    ⟨if nd then fs0.mkdirs tgt else fs0, []⟩ = L at h ⊢
  obtain ⟨st, err⟩ := L
  obtain ⟨h2, h1⟩ := h
  simp only at h2 h1
  subst h2
  exact ⟨rfl, h1⟩

/-- C10 witness: a transfer failing after one byte leaves the destination
holding exactly that first byte. -/
theorem C10_witness :
    (download bkK pfxE tgtT false false false (Xfer.fail 1 :: []) fsT).1.files
      (pjoin tgtT (basename oK.key)) = some (oK.payload.take 1) :=
  (C10_partial_file_on_failure bkK pfxE tgtT false false [] oK [] [] 1 [] fsT
    (by decide) rfl (by decide) (by decide) (by decide)).2

end S3
